import Mathlib

/-!
Verification development for the Retrieval & Classification Engine (RCE)
of the exam_manager repository.

The Python services are shallowly embedded as executable Lean definitions:
 - `app/services/retrieval.py` : `search_chunks_hybrid_rrf`, `aggregate_candidates`
 - `app/services/retrieval_features.py` : `auto_confirm_v2`, `is_uncertain`
 - `app/services/ai_classifier.py` : `GeminiClassifier.classify_single`,
   `GeminiClassifier._normalize_evidence`, `AsyncBatchProcessor._process_job`,
   `apply_classification_results`
 - `app/services/classification_pipeline.py` : `classify_single_question`
 - `scripts/evaluate_evalset.py` : the auto-confirm short-circuit branch of `run_eval`

Python dict values that may be `None` are embedded as `Option`; Python
truthiness tests (`if not x`) on integers are embedded as `none`-or-zero
tests, and on strings as emptiness tests.  Scores are embedded as `ℚ`.
-/

namespace ExamMgr

/-- A retrieval hit dict as produced by `search_chunks_bm25` /
`search_chunks_embedding` (`retrieval.py`).  `score` stands for the
list-specific score key (`bm25_score` for a lexical hit,
`embedding_score` for a dense hit). -/
structure Hit where
  chunkId : Option Int
  lectureId : Option Int
  pageStart : Option Int := none
  pageEnd : Option Int := none
  snippet : String := ""
  score : ℚ := 0
deriving Repr, DecidableEq

/-- A fused hit dict as returned by `search_chunks_hybrid_rrf`:
the chunk metadata plus the `rrf_score` key. -/
structure FHit where
  chunkId : Option Int
  lectureId : Option Int
  pageStart : Option Int
  pageEnd : Option Int
  snippet : String
  rrfScore : ℚ
deriving Repr, DecidableEq

/-- Python update `rrf_scores.setdefault(chunk_id, 0.0)` followed by
`rrf_scores[chunk_id] += v`, on an insertion-ordered association list. -/
def upsertAdd (m : List (Int × ℚ)) (k : Int) (v : ℚ) : List (Int × ℚ) :=
  match m with
  | [] => [(k, v)]
  | (k₀, v₀) :: t => if k₀ = k then (k₀, v₀ + v) :: t else (k₀, v₀) :: upsertAdd t k v

/-- Python `meta_map.setdefault(chunk_id, chunk)`: keep the first-inserted
value. -/
def putFirst (m : List (Int × Hit)) (k : Int) (h : Hit) : List (Int × Hit) :=
  match m with
  | [] => [(k, h)]
  | (k₀, h₀) :: t => if k₀ = k then (k₀, h₀) :: t else (k₀, h₀) :: putFirst t k h

/-- One enumerate-loop of `search_chunks_hybrid_rrf` accumulating
`1.0 / (rrf_k + idx + 1)` into the score map, skipping hits whose
`chunk_id` is `None`.  `i` is the running 0-based index. -/
def addRanks (K : ℕ) : List Hit → ℕ → List (Int × ℚ) → List (Int × ℚ)
  | [], _, m => m
  | h :: t, i, m =>
    match h.chunkId with
    | none => addRanks K t (i + 1) m
    | some c => addRanks K t (i + 1) (upsertAdd m c (1 / (K + i + 1 : ℚ)))

/-- One enumerate-loop of `search_chunks_hybrid_rrf` filling `meta_map`
via `setdefault`, skipping hits whose `chunk_id` is `None`. -/
def addMetas : List Hit → List (Int × Hit) → List (Int × Hit)
  | [], m => m
  | h :: t, m =>
    match h.chunkId with
    | none => addMetas t m
    | some c => addMetas t (putFirst m c h)

/-- Association-list lookup (Python `dict.get`). -/
def alistGet {α : Type} (m : List (Int × α)) (k : Int) : Option α :=
  match m with
  | [] => none
  | (k₀, v₀) :: t => if k₀ = k then some v₀ else alistGet t k

/-- Lookup of a chunk in `meta_map` with an empty-dict default, then
`.get(...)` on each key: a missing entry yields all-`None` metadata. -/
def emptyHit : Hit := ⟨none, none, none, none, "", 0⟩

/-- Embedding of `search_chunks_hybrid_rrf` (retrieval.py, lines 473-581)
after the two inner searches have produced `bm25_chunks` and `emb_chunks`.
`K` is the configured `rrf_k`, `topN` the requested size. -/
def searchChunksHybridRRF (K : ℕ) (topN : ℕ) (bm25Chunks embChunks : List Hit) :
    List FHit :=
  if bm25Chunks = [] then []
  else if embChunks = [] then
    bm25Chunks.enum.map fun p =>
      { chunkId := p.2.chunkId, lectureId := p.2.lectureId,
        pageStart := p.2.pageStart, pageEnd := p.2.pageEnd,
        snippet := p.2.snippet, rrfScore := 1 / (K + p.1 + 1 : ℚ) }
  else
    let scores := addRanks K embChunks 0 (addRanks K bm25Chunks 0 [])
    let metas := addMetas embChunks (addMetas bm25Chunks [])
    let combined := scores.map fun p =>
      let m := (alistGet metas p.1).getD emptyHit
      { chunkId := some p.1, lectureId := m.lectureId,
        pageStart := m.pageStart, pageEnd := m.pageEnd,
        snippet := m.snippet, rrfScore := p.2 : FHit }
    (combined.mergeSort fun a b => decide (b.rrfScore ≤ a.rrfScore)).take topN

/-- Specification-side RRF contribution of one ranked list for chunk `c`:
`1/(K + rank + 1)` at the first (0-based, counted from `i`) rank where
`c` appears, `0` when `c` does not appear.  Used to state the
fused-score law. -/
def rrfTerm (K : ℕ) (c : Int) : List Hit → ℕ → ℚ
  | [], _ => 0
  | h :: t, i =>
    if h.chunkId = some c then 1 / (K + i + 1 : ℚ) else rrfTerm K c t (i + 1)

/-- Numeric association-list lookup defaulting to `0`. -/
def alistVal (m : List (Int × ℚ)) (c : Int) : ℚ := (alistGet m c).getD 0

/-- The keys of an association list, in order. -/
def keysOf {α : Type} (m : List (Int × α)) : List Int := m.map (·.1)

/-- Sum of positional contributions of chunk `c` in a list starting at
index `i`; coincides with `rrfTerm` when chunk ids are duplicate-free. -/
def rrfTermSum (K : ℕ) (c : Int) : List Hit → ℕ → ℚ
  | [], _ => 0
  | h :: t, i =>
    (if h.chunkId = some c then 1 / (K + i + 1 : ℚ) else 0) + rrfTermSum K c t (i + 1)

/-- The `chunk_id` values carried by a hit list (ignoring `None`). -/
def hitIds (l : List Hit) : List Int := l.filterMap (·.chunkId)

/- ==================== aggregate_candidates ==================== -/

/-- Evidence dict appended into `per_lecture[lecture_id]["evidence"]`
(`aggregate_candidates`, retrieval.py). -/
structure EvItem where
  pageStart : Option Int
  pageEnd : Option Int
  snippet : String
  chunkId : Option Int
  score : ℚ
deriving Repr, DecidableEq

/-- Evidence dict of a finished candidate (score key dropped). -/
structure EvOut where
  pageStart : Option Int
  pageEnd : Option Int
  snippet : String
  chunkId : Option Int
deriving Repr, DecidableEq

/-- Lecture catalog row used for hydration: `lecture.title` and
`lecture.block.name` (the block may be absent). -/
structure LectureInfo where
  title : String
  blockName : Option String
deriving Repr, DecidableEq

/-- A candidate dict as returned by `aggregate_candidates`. -/
structure Candidate where
  id : Int
  title : String
  blockName : String
  fullPath : String
  score : ℚ
  evidence : List EvOut
deriving Repr, DecidableEq

/-- Python `per_lecture.setdefault(lecture_id, ...)` followed by
`entry["score"] += score` and `entry["evidence"].append(...)`. -/
def perLectureAdd (m : List (Int × (ℚ × List EvItem))) (k : Int) (e : EvItem) :
    List (Int × (ℚ × List EvItem)) :=
  match m with
  | [] => [(k, (e.score, [e]))]
  | (k₀, (s₀, ev₀)) :: t =>
    if k₀ = k then (k₀, (s₀ + e.score, ev₀ ++ [e])) :: t
    else (k₀, (s₀, ev₀)) :: perLectureAdd t k e

/-- The first loop of `aggregate_candidates`: build the insertion-ordered
`per_lecture` map.  Each chunk contributes `-(chunk.get("bm25_score") or 0.0)`
to its lecture and appends an evidence dict; chunks with `lecture_id = None`
are skipped. -/
def buildPerLecture : List Hit → List (Int × (ℚ × List EvItem)) →
    List (Int × (ℚ × List EvItem))
  | [], m => m
  | h :: t, m =>
    match h.lectureId with
    | none => buildPerLecture t m
    | some lid =>
      buildPerLecture t
        (perLectureAdd m lid
          ⟨h.pageStart, h.pageEnd, h.snippet, h.chunkId, -h.score⟩)

/-- The second loop of `aggregate_candidates`: hydrate each
`per_lecture` entry against the lecture catalog `cat`
(`Lecture.query` joined with `Block`; lectures absent from it are
dropped, mirroring `if not lecture: continue`), selecting the top
`evidence_per_lecture` evidence items by per-chunk score. -/
def candidateRows (cat : Int → Option LectureInfo) (chunks : List Hit)
    (evidencePerLecture : ℕ) : List Candidate :=
  (buildPerLecture chunks []).filterMap fun p =>
    match cat p.1 with
    | none => none
    | some lec =>
      let evidence :=
        ((p.2.2.mergeSort fun a b => decide (b.score ≤ a.score)).take
          evidencePerLecture)
      some
        { id := p.1, title := lec.title,
          blockName := lec.blockName.getD "",
          fullPath :=
            match lec.blockName with
            | some b => b ++ " > " ++ lec.title
            | none => lec.title,
          score := p.2.1,
          evidence := evidence.map fun e =>
            ⟨e.pageStart, e.pageEnd, e.snippet, e.chunkId⟩ : Candidate }

/-- Embedding of `aggregate_candidates` (retrieval.py, lines 584-648):
aggregate per lecture, hydrate, stable-sort by aggregate score
descending, truncate to `top_k_lectures`. -/
def aggregateCandidates (cat : Int → Option LectureInfo) (chunks : List Hit)
    (topKLectures : ℕ := 8) (evidencePerLecture : ℕ := 3) : List Candidate :=
  if chunks = [] then []
  else
    ((candidateRows cat chunks evidencePerLecture).mergeSort
      fun a b => decide (b.score ≤ a.score)).take topKLectures

/-- The score component stored in the `per_lecture` map for a lecture. -/
def plVal (m : List (Int × (ℚ × List EvItem))) (c : Int) : ℚ :=
  ((alistGet m c).map (·.1)).getD 0

/-- Specification-side lecture score: the sum of negated `bm25_score`
over the member chunks of lecture `lid`. -/
def lectureScoreSum (lid : Int) : List Hit → ℚ
  | [] => 0
  | h :: t =>
    (if h.lectureId = some lid then -h.score else 0) + lectureScoreSum lid t

/- ==================== retrieval_features.py ==================== -/

/-- The per-question feature dict built by `build_retrieval_artifacts`
(retrieval_features.py).  `None` values are `none`; rank values are the
1-based positions `idx + 1` stored in the rank maps. -/
structure Features where
  bm25Top1ChunkId : Option Int := none
  bm25Top1LectureId : Option Int := none
  embedTop1ChunkId : Option Int := none
  embedTop1LectureId : Option Int := none
  hybridTop1ChunkId : Option Int := none
  hybridTop1LectureId : Option Int := none
  bm25Margin : Option ℚ := none
  embedMargin : Option ℚ := none
  hybridTop1Bm25Rank : Option ℕ := none
  hybridTop1EmbedRank : Option ℕ := none
  hybridTop1ChunkLen : Option ℕ := none
deriving Repr, DecidableEq

/-- Embedding of `auto_confirm_v2` (retrieval_features.py, lines 137-154).
`if not bm25_top1 or not hybrid_top1` is Python truthiness on the chunk
ids: `None` and `0` are both falsy.  An entirely empty feature dict
(`if not features`) is the all-`none` record, which the first test
already rejects. -/
def autoConfirmV2 (f : Features) (delta : ℚ) (maxBm25Rank : ℕ) : Bool :=
  match f.bm25Top1ChunkId, f.hybridTop1ChunkId with
  | some b, some h =>
    if b = 0 ∨ h = 0 then false
    else if b ≠ h then false
    else
      match f.embedMargin with
      | none => false
      | some m =>
        if m < delta then false
        else
          match f.hybridTop1Bm25Rank with
          | none => false
          | some r => if r > maxBm25Rank then false else true
  | _, _ => false

/-- Embedding of `is_uncertain` (retrieval_features.py, lines 157-176). -/
def isUncertain (f : Features) (deltaUncertain : ℚ) (minChunkLen : ℕ)
    (autoConfirm : Bool) : Bool :=
  if !autoConfirm then true
  else
    match f.embedMargin with
    | none => true
    | some m =>
      if m < deltaUncertain then true
      else
        if (match f.bm25Top1ChunkId, f.hybridTop1ChunkId with
            | some b, some h => b ≠ 0 && h ≠ 0 && b ≠ h
            | _, _ => false) then true
        else
          match f.hybridTop1ChunkLen with
          | none => true
          | some len => if len < minChunkLen then true else false

/-- The properties the claims compare an eval decision against:
the fields set on an item by `run_eval` in `scripts/evaluate_evalset.py`. -/
structure EvalDecision where
  suggestedLectureId : Option Int
  finalLectureId : Option Int
  confidence : ℚ
  modelName : String
  usedLLM : Bool
deriving Repr, DecidableEq

/-- Embedding of the auto-confirm short-circuit of `run_eval`
(scripts/evaluate_evalset.py, lines 333-338): when the item carries
`auto_confirm = True` the loop `continue`s before any cache lookup or
classifier call, filling the decision from
`features.get("hybrid_top1_lecture_id")`; otherwise the judge path
produces `llmOutcome` (with `usedLLM := true` recorded on it). -/
def runEvalDecision (f : Features) (delta : ℚ) (maxBm25Rank : ℕ)
    (llmOutcome : EvalDecision) : EvalDecision :=
  if autoConfirmV2 f delta maxBm25Rank then
    { suggestedLectureId := f.hybridTop1LectureId,
      finalLectureId := f.hybridTop1LectureId,
      confidence := 1, modelName := "auto_confirm_v2", usedLLM := false }
  else llmOutcome

/- ==================== GeminiClassifier.classify_single ==================== -/

/-- Character-level substring test: Python `sub in s`. -/
def leadMatch : List Char → List Char → Bool
  | [], _ => true
  | _ :: _, [] => false
  | a :: as, b :: bs => a = b && leadMatch as bs

/-- Test `containsSeq n h`: `n` occurs as a contiguous subsequence of `h`. -/
def containsSeq (n : List Char) : List Char → Bool
  | [] => n.isEmpty
  | b :: bs => leadMatch n (b :: bs) || containsSeq n bs

/-- Python `needle in hay` on strings. -/
def strContains (hay needle : String) : Bool := containsSeq needle.data hay.data

/-- Python `str.strip()` (whitespace from both ends), on the character
list. -/
def pyStrip (s : String) : String :=
  String.mk (((s.data.dropWhile Char.isWhitespace).reverse.dropWhile
    Char.isWhitespace).reverse)

/-- One item of the model-returned `evidence` array, after field
extraction: `none` stands for a missing key or a value `int()` /
`str()` cannot use. -/
structure RawEvidence where
  lectureId : Option Int := none
  chunkId : Option Int := none
  quote : Option String := none
deriving Repr, DecidableEq

/-- A parsed judge result dict (after `json.loads` or
`_fallback_parse_result`), restricted to the keys `classify_single`
reads. -/
structure ParsedResult where
  lectureId : Option Int
  noMatch : Bool
  confidence : ℚ
  reason : String
  studyHint : String
  evidence : List RawEvidence
deriving Repr, DecidableEq

/-- A normalized evidence dict produced by `_normalize_evidence`. -/
structure NormEvidence where
  lectureId : Int
  pageStart : Option Int
  pageEnd : Option Int
  quote : String
  chunkId : Option Int
deriving Repr, DecidableEq

/-- The dict comprehension keyed by chunk id over the selected
candidate evidence, so a duplicated key keeps the LAST item. -/
def lastKeyed (l : List EvOut) : List (Int × EvOut) :=
  l.foldl
    (fun m e =>
      match e.chunkId with
      | none => m
      | some cid =>
        (m.filter fun p => p.1 ≠ cid) ++ [(cid, e)])
    []

/-- Embedding of `GeminiClassifier._normalize_evidence`
(ai_classifier.py, lines 285-351). -/
def normalizeEvidence (lectureId : Int) (candidates : List Candidate)
    (evidenceRaw : List RawEvidence) : List NormEvidence :=
  match candidates.find? (fun c => c.id = lectureId) with
  | none => []
  | some selected =>
    let candidateEvidence := lastKeyed selected.evidence
    let cleaned := evidenceRaw.foldl
      (fun acc item =>
        if (match item.lectureId with
            | some l => decide (l ≠ lectureId)
            | none => false) then acc
        else
          match item.chunkId with
          | none => acc
          | some cid =>
            match alistGet candidateEvidence cid with
            | none => acc
            | some candidateItem =>
              let snippet := candidateItem.snippet
              let quote := pyStrip (item.quote.getD "")
              if quote ≠ "" ∧ strContains snippet quote then
                acc ++ [⟨lectureId, candidateItem.pageStart,
                         candidateItem.pageEnd, quote, some cid⟩]
              else if snippet ≠ "" then
                acc ++ [⟨lectureId, candidateItem.pageStart,
                         candidateItem.pageEnd, snippet, some cid⟩]
              else acc)
      []
    if cleaned ≠ [] then cleaned
    else
      (selected.evidence.take 2).filterMap fun candidateItem =>
        if candidateItem.snippet = "" then none
        else some ⟨lectureId, candidateItem.pageStart, candidateItem.pageEnd,
                   candidateItem.snippet, candidateItem.chunkId⟩

/-- The decision dict returned by `classify_single`. -/
structure Decision where
  lectureId : Option Int
  confidence : ℚ
  reason : String
  studyHint : String
  evidence : List NormEvidence
  noMatch : Bool
  modelName : String
deriving Repr, DecidableEq

/-- A classify-single run: the decision plus whether an LLM request
(`client.models.generate_content`) was issued. -/
structure ClassifyRun where
  decision : Decision
  llmCalled : Bool
deriving Repr, DecidableEq

/-- Embedding of `GeminiClassifier.classify_single`
(ai_classifier.py, lines 358-451).  `modelName` is the configured
`self.model_name`; `parsed` is the parse outcome of the LLM response
text (strict JSON parse or `_fallback_parse_result`).  With no
candidates the fixed decision is returned before any request. -/
def classifySingle (modelName : String) (candidates : List Candidate)
    (parsed : ParsedResult) : ClassifyRun :=
  if candidates = [] then
    { decision :=
        { lectureId := none, confidence := 0,
          reason := "No lecture candidates available.", studyHint := "",
          evidence := [], noMatch := true, modelName := modelName },
      llmCalled := false }
  else
    let lid₀ := if parsed.noMatch then none else parsed.lectureId
    let pass₂ :=
      match lid₀ with
      | some v =>
        if candidates.any (fun c => c.id = v) then (some v, parsed.noMatch)
        else ((none : Option Int), true)
      | none => (none, parsed.noMatch)
    let lid := pass₂.1
    let noMatch := pass₂.2
    let evidence :=
      if noMatch then []
      else
        match lid with
        | some v =>
          if v ≠ 0 then normalizeEvidence v candidates parsed.evidence else []
        | none => []
    { decision :=
        { lectureId := lid, confidence := parsed.confidence,
          reason := parsed.reason, studyHint := parsed.studyHint,
          evidence := evidence, noMatch := noMatch, modelName := modelName },
      llmCalled := true }

/- ==================== AsyncBatchProcessor ==================== -/

/-- Status values of `ClassificationJob` (app/models.py, lines 320-323). -/
inductive JobStatus
  | pending
  | processing
  | completed
  | failed
deriving Repr, DecidableEq

/-- The columns of a `ClassificationJob` row the accounting claims
observe. `completedAt` is an abstract timestamp. -/
structure JobState where
  status : JobStatus
  totalCount : ℕ
  processedCount : ℕ
  successCount : ℕ
  failedCount : ℕ
  completedAt : Option ℕ
deriving Repr, DecidableEq

/-- Outcome of one loop iteration of `_process_job` for one question id:
the question row is missing (`if not question`), classification
succeeded, or the per-question `except` branch recorded an error. -/
inductive QOutcome
  | missing
  | classified
  | errored
deriving Repr, DecidableEq

/-- The counter updates committed after one question
(ai_classifier.py, lines 537-625). -/
def stepQuestion (s : JobState) (o : QOutcome) : JobState :=
  match o with
  | .missing =>
    { s with failedCount := s.failedCount + 1,
             processedCount := s.processedCount + 1 }
  | .classified =>
    { s with successCount := s.successCount + 1,
             processedCount := s.processedCount + 1 }
  | .errored =>
    { s with failedCount := s.failedCount + 1,
             processedCount := s.processedCount + 1 }

/-- The job row persisted by `start_classification_job`
(ai_classifier.py, lines 463-491): `pending`, `total_count =
len(question_ids)`, the counter columns at their model defaults `0`. -/
def initialJob (total : ℕ) : JobState :=
  ⟨.pending, total, 0, 0, 0, none⟩

/-- The sequence of committed job states observable during one run of
`_process_job`: the pending row, the `processing` transition, one state
per processed question, and the terminal commit.  `outcomes` lists the
loop iterations that ran; `aborted = true` models an exception escaping
to the outer `except` (possibly before all questions ran), which marks
the job `failed`; otherwise the loop finished and the job is marked
`completed`.  `t` is the `completed_at` timestamp. -/
def jobTrace (total : ℕ) (outcomes : List QOutcome) (aborted : Bool) (t : ℕ) :
    List JobState :=
  let s₁ : JobState := { initialJob total with status := .processing }
  let mids := outcomes.scanl stepQuestion s₁
  let last := outcomes.foldl stepQuestion s₁
  let final :=
    if aborted then { last with status := .failed, completedAt := some t }
    else { last with status := .completed, completedAt := some t }
  initialJob total :: (mids ++ [final])

/-- One admissible status transition of the job state machine:
either the status is unchanged, or it advances
`pending → processing → {completed, failed}`. -/
def statusAdvance (a b : JobState) : Prop :=
  a.status = b.status
  ∨ (a.status = .pending ∧ b.status = .processing)
  ∨ (a.status = .processing ∧ (b.status = .completed ∨ b.status = .failed))

/- ==================== apply_classification_results ==================== -/

/-- A `LectureChunk` row as read by `apply_classification_results`
(its ORM model is defined alongside `app/models.py`; the fields here are
the ones the apply layer reads). -/
structure ChunkRow where
  lectureId : Option Int
  materialId : Option Int
  pageStart : Option Int
  pageEnd : Option Int
  content : String
deriving Repr, DecidableEq

/-- A `Lecture` row joined with its `Block` for snapshots. -/
structure LectureRow where
  title : String
  blockName : String
deriving Repr, DecidableEq

/-- The database tables `apply_classification_results` consults. -/
structure ApplyEnv where
  lectures : Int → Option LectureRow
  chunks : Int → Option ChunkRow

/-- One evidence dict inside a persisted job result payload. -/
structure PayloadEvidence where
  chunkId : Option Int := none
  lectureId : Option Int := none
  pageStart : Option Int := none
  pageEnd : Option Int := none
  quote : Option String := none
  snippet : Option String := none
  score : Option ℚ := none
deriving Repr, DecidableEq

/-- One result dict of a job payload, restricted to the keys
`apply_classification_results` reads. -/
structure PayloadResult where
  lectureId : Option Int
  noMatch : Bool
  confidence : ℚ
  reason : String
  modelName : String
  evidence : List PayloadEvidence
deriving Repr, DecidableEq

/-- A `QuestionChunkMatch` evidence row as constructed by
`apply_classification_results` (ai_classifier.py, lines 764-780). -/
structure MatchRow where
  questionId : Int
  lectureId : Int
  chunkId : Int
  materialId : Option Int
  pageStart : Option Int
  pageEnd : Option Int
  snippet : String
  score : ℚ
  source : String
  jobId : Int
  isPrimary : Bool
deriving Repr, DecidableEq

/-- The columns of a `Question` row touched by the apply layer, plus its
current set of `QuestionChunkMatch` rows. -/
structure QuestionState where
  id : Int
  lectureId : Option Int
  isClassified : Bool
  classificationStatus : String
  aiSuggestedLectureId : Option Int
  aiSuggestedSnapshot : Option String
  aiConfidence : ℚ
  aiReason : String
  aiModelName : String
  aiClassifiedAt : Option ℕ
  matchRows : List MatchRow
deriving Repr, DecidableEq

/-- The three `apply_mode` values. -/
inductive ApplyMode
  | all
  | onlyUnclassified
  | onlyChanges
deriving Repr, DecidableEq

/-- Python `x or y` over optional ints where `None` and `0` are falsy:
first truthy value of the list, else `none`. -/
def firstTruthyInt : List (Option Int) → Option Int
  | [] => none
  | some v :: t => if v ≠ 0 then some v else firstTruthyInt t
  | none :: t => firstTruthyInt t

/-- Python `x or y` over optional strings where `None` and `""` are
falsy. -/
def firstTruthyStr : List (Option String) → Option String
  | [] => none
  | some s :: t => if s ≠ "" then some s else firstTruthyStr t
  | none :: t => firstTruthyStr t

/-- Truthiness on the id, then the lecture lookup, as in
`lecture = Lecture.query.get(lecture_id) if lecture_id else None`. -/
def lookupLecture (env : ApplyEnv) (lid : Option Int) : Option (Int × LectureRow) :=
  match lid with
  | some v => if v ≠ 0 then (env.lectures v).map (fun l => (v, l)) else none
  | none => none

/-- The evidence-row rebuild of `apply_classification_results`
(ai_classifier.py, lines 731-782): enumerate the payload evidence list,
skip items without a truthy `chunk_id` or without a derivable truthy
lecture id, and construct fresh `QuestionChunkMatch` rows
(`is_primary` exactly on enumerate index 0). -/
def buildMatches (env : ApplyEnv) (jobId : Int) (questionId : Int)
    (lecture : Option (Int × LectureRow)) (confidence : ℚ)
    (evidenceList : List PayloadEvidence) : List MatchRow :=
  (evidenceList.enum.filterMap fun p =>
    let idx := p.1
    let e := p.2
    match e.chunkId with
    | none => none
    | some cid =>
      if cid = 0 then none
      else
        let chunk := env.chunks cid
        let evidenceLectureId :=
          firstTruthyInt
            [e.lectureId, lecture.map (·.1), chunk.bind (·.lectureId)]
        match evidenceLectureId with
        | none => none
        | some elid =>
          let snippet₀ :=
            (firstTruthyStr
              [e.quote, e.snippet, chunk.map (·.content)]).getD ""
          let snippet₁ := pyStrip snippet₀
          let snippet :=
            if snippet₁.length > 500 then (snippet₁.take 497) ++ "..."
            else snippet₁
          let score :=
            match e.score with
            | some s => if s ≠ 0 then s else confidence
            | none => confidence
          some
            { questionId := questionId, lectureId := elid, chunkId := cid,
              materialId := chunk.bind (·.materialId),
              pageStart :=
                firstTruthyInt [e.pageStart, chunk.bind (·.pageStart)],
              pageEnd :=
                firstTruthyInt [e.pageEnd, chunk.bind (·.pageEnd)],
              snippet := snippet, score := score, source := "ai",
              jobId := jobId, isPrimary := idx = 0 })

/-- The `should_apply` filter of `apply_classification_results`
(ai_classifier.py, lines 714-719). -/
def shouldApply (mode : ApplyMode) (q : QuestionState)
    (lecture : Option (Int × LectureRow)) : Bool :=
  match mode with
  | .all => true
  | .onlyUnclassified => !q.isClassified
  | .onlyChanges =>
    match lecture with
    | none => false
    | some (v, _) => decide (some v ≠ q.lectureId)

/-- The per-question body of `apply_classification_results`
(ai_classifier.py, lines 680-782): advisory AI fields, the optional
assignment commit, and — whenever `should_apply` — the replacement of
every existing `QuestionChunkMatch` row of the question with rows rebuilt
from the payload evidence.  Returns the updated question row and whether
the applied counter was incremented. -/
def applyOne (env : ApplyEnv) (mode : ApplyMode) (jobId : Int) (now : ℕ)
    (q : QuestionState) (r : PayloadResult) : QuestionState × Bool :=
  let lecture := lookupLecture env r.lectureId
  let noMatch := r.noMatch
  let confidence := r.confidence
  let q₁ :=
    match lecture, noMatch with
    | some (v, lec), false =>
      { q with
        aiSuggestedLectureId := some v,
        aiSuggestedSnapshot := some (lec.blockName ++ " > " ++ lec.title),
        classificationStatus :=
          if !q.isClassified then "ai_suggested" else q.classificationStatus }
    | _, _ =>
      { q with
        aiSuggestedLectureId := none,
        aiSuggestedSnapshot := none,
        classificationStatus :=
          if !q.isClassified then "manual" else q.classificationStatus }
  let q₂ :=
    { q₁ with aiConfidence := confidence, aiReason := r.reason,
              aiModelName := r.modelName, aiClassifiedAt := some now }
  let sa := shouldApply mode q lecture
  let committed :=
    sa && lecture.isSome && !noMatch
  let q₃ :=
    match lecture with
    | some (v, _) =>
      if sa && !noMatch then
        { q₂ with lectureId := some v, isClassified := true,
                  classificationStatus := "ai_confirmed" }
      else q₂
    | none => q₂
  let q₄ :=
    if sa then
      { q₃ with matchRows := buildMatches env jobId q.id lecture confidence r.evidence }
    else q₃
  (q₄, committed)

/-- The full `apply_classification_results` loop over `question_ids`
(ai_classifier.py, lines 651-785), acting on a question store.
`results` is `results_map` (payload results keyed by `question_id`);
question ids without a result row or without a question row are
skipped. -/
def applyRun (env : ApplyEnv) (mode : ApplyMode) (jobId : Int) (now : ℕ)
    (results : Int → Option PayloadResult) (questionIds : List Int)
    (store : Int → Option QuestionState) : Int → Option QuestionState :=
  questionIds.foldl
    (fun st qid =>
      match results qid, st qid with
      | some r, some q =>
        fun x => if x = qid then some (applyOne env mode jobId now q r).1 else st x
      | _, _ => st)
    store

/-- The effect of one `applyRun` loop iteration on the stored row of one
question id: untouched unless both a payload result and a question row
exist. -/
def stepAt (env : ApplyEnv) (mode : ApplyMode) (jobId : Int) (now : ℕ)
    (results : Int → Option PayloadResult) (qid : Int)
    (o : Option QuestionState) : Option QuestionState :=
  match results qid, o with
  | some r, some q => some (applyOne env mode jobId now q r).1
  | _, _ => o

/-- The question fields the idempotence claim compares: `lecture_id`,
`is_classified`, `classification_status`, and the evidence rows modulo
row identity. -/
def observable (q : QuestionState) :
    Option Int × Bool × String × List MatchRow :=
  (q.lectureId, q.isClassified, q.classificationStatus, q.matchRows)

/- ==================== classification_pipeline.py ==================== -/

/-- The parameter names accepted by `LectureRetriever.find_candidates`
(ai_classifier.py, lines 183-188), `self` aside. -/
def findCandidatesParamNames : List String :=
  ["question_text", "top_k", "lecture_ids"]

/-- The keyword arguments passed by `_retrieve_stage`
(classification_pipeline.py, lines 141-146); `question_text` is passed
positionally. -/
def retrieveStageKwargNames : List String :=
  ["top_k", "question_id", "lecture_ids"]

/-- Python call binding for keyword arguments: every keyword must name a
declared parameter, otherwise the call raises `TypeError` before the
callee body runs. -/
def kwargsBind (paramNames kwargNames : List String) : Bool :=
  kwargNames.all (fun k => paramNames.contains k)

/-- Python runtime errors the pipeline embedding distinguishes. -/
inductive PyError
  | typeError
deriving Repr, DecidableEq

/-- Embedding of `_retrieve_stage` (classification_pipeline.py, lines
121-148): the stage ends in the `find_candidates` call; `body` stands
for the candidate list the callee would return if the call bound. -/
def retrieveStage (body : List Candidate) : Except PyError (List Candidate) :=
  if kwargsBind findCandidatesParamNames retrieveStageKwargNames then
    Except.ok body
  else Except.error PyError.typeError

/-- Embedding of `classify_single_question` (classification_pipeline.py,
lines 71-118): RETRIEVE, then EXPAND, then JUDGE, each propagating
errors.  `expand` and `judge` stand for the later stages applied to the
retrieved candidates. -/
def classifySingleQuestionPipeline (body : List Candidate)
    (expand : List Candidate → List Candidate)
    (judge : List Candidate → Decision) : Except PyError Decision := do
  let candidates ← retrieveStage body
  let expanded := expand candidates
  return judge expanded

/-- The feature record of the S1 auto-confirm scenario (evaluated by the
witness of the short-circuit theorem). -/
def evalFeat42 : Features :=
  { bm25Top1ChunkId := some 42
    hybridTop1ChunkId := some 42
    hybridTop1LectureId := some 7
    embedMargin := some (7/100)
    hybridTop1Bm25Rank := some 2 }

/-- The feature record showing that `auto_confirm_v2` rejects a non-null
but zero chunk id (Python truthiness). -/
def acFeatZero : Features :=
  { bm25Top1ChunkId := some 0
    hybridTop1ChunkId := some 0
    embedMargin := some (1/10)
    hybridTop1Bm25Rank := some 1 }

/-- The database of the S6 apply scenario: lecture 9 in block B1 and the
two evidence chunks 301 and 305. -/
def applyS6Env : ApplyEnv :=
  ⟨fun i => if i = 9 then some ⟨"L9", "B1"⟩ else none,
   fun i =>
     if i = 301 then some ⟨some 9, some 1, some 12, some 13, "c301"⟩
     else if i = 305 then some ⟨some 9, some 1, some 14, some 14, "c305"⟩
     else none⟩

/-- The S6 job result for question 55: lecture 9 with two evidence
items (chunk 301 pages 12-13 quote "X", chunk 305 pages 14-14
quote "Y"). -/
def applyS6Result : PayloadResult :=
  ⟨some 9, false, 1, "r", "m",
   [⟨some 301, none, some 12, some 13, some "X", none, none⟩,
    ⟨some 305, none, some 14, some 14, some "Y", none, none⟩]⟩

/-- The S6 results map: only question 55 has a payload result. -/
def applyS6Results : Int → Option PayloadResult :=
  fun i => if i = 55 then some applyS6Result else none

/-- The S6 question store: question 55, unclassified, currently on
lecture 2 with one stale evidence row. -/
def applyS6Store : Int → Option QuestionState :=
  fun i =>
    if i = 55 then
      some ⟨55, some 2, false, "manual", none, none, 0, "", "", none,
        [⟨55, 2, 999, none, none, none, "old", 1, "ai", 3, true⟩]⟩
    else none

/-- The question state S6 expects after apply: lecture 9, classified,
`ai_confirmed`, and exactly the two fresh evidence rows with
`is_primary = [true, false]`. -/
def applyS6Expected : Option Int × Bool × String × List MatchRow :=
  (some 9, true, "ai_confirmed",
   [⟨55, 9, 301, some 1, some 12, some 13, "X", 1, "ai", 77, true⟩,
    ⟨55, 9, 305, some 1, some 14, some 14, "Y", 1, "ai", 77, false⟩])

/- ==================== lemmas and theorems ==================== -/

/-- Full characterization of `auto_confirm_v2`: the chunk-id test is
Python truthiness, so the agreed id must additionally be nonzero. -/
theorem autoConfirmV2_true_iff (f : Features) (delta : ℚ) (R : ℕ) :
    autoConfirmV2 f delta R = true ↔
      (∃ c, c ≠ 0 ∧ f.bm25Top1ChunkId = some c ∧ f.hybridTop1ChunkId = some c)
      ∧ (∃ m, f.embedMargin = some m ∧ delta ≤ m)
      ∧ (∃ r, f.hybridTop1Bm25Rank = some r ∧ r ≤ R) := by
  unfold autoConfirmV2
  rcases hb : f.bm25Top1ChunkId with _ | b
  · simp [hb]
  · rcases hh : f.hybridTop1ChunkId with _ | h
    · simp [hh]
    · rcases hm : f.embedMargin with _ | m
      · simp only [hb, hh, hm]
        split_ifs <;> simp_all
      · rcases hr : f.hybridTop1Bm25Rank with _ | r
        · simp only [hb, hh, hm, hr]
          split_ifs <;> simp_all
        · simp only [hb, hh, hm, hr]
          constructor
          · intro ht
            split_ifs at ht with h₁ h₂ h₃ h₄
            push_neg at h₁
            rw [not_not] at h₂
            push_neg at h₃ h₄
            exact ⟨⟨h, h₁.2, by rw [h₂], rfl⟩, ⟨m, rfl, h₃⟩, ⟨r, rfl, h₄⟩⟩
          · rintro ⟨⟨c, hc0, hbc, hhc⟩, ⟨m₀, hm₀, hdm⟩, ⟨r₀, hr₀, hrR⟩⟩
            rw [Option.some.injEq] at hbc hhc hm₀ hr₀
            subst hbc hhc hm₀ hr₀
            rw [if_neg (by omega), if_neg (by simp), if_neg (by linarith),
              if_neg (by omega)]

/-- C7 (counterexample): with `bm25_top1_chunk_id = hybrid_top1_chunk_id
= 0` (non-null and equal), `embed_margin = 1/10 ≥ δ = 1/20` and
`hybrid_top1_bm25_rank = 1 ≤ R = 5`, the claimed three conditions hold,
yet `auto_confirm_v2` returns `False`: the code tests Python truthiness
(`if not bm25_top1`), not nullness. -/
theorem auto_confirm_nonnull_iff_cx :
    ¬ ((autoConfirmV2 acFeatZero (1/20) 5 = true) ↔
        ((∃ c, acFeatZero.bm25Top1ChunkId = some c
            ∧ acFeatZero.hybridTop1ChunkId = some c)
         ∧ (∃ m, acFeatZero.embedMargin = some m ∧ (1/20 : ℚ) ≤ m)
         ∧ (∃ r, acFeatZero.hybridTop1Bm25Rank = some r ∧ r ≤ 5))) := by
  intro hIff
  have ht := hIff.mpr
    ⟨⟨0, rfl, rfl⟩, ⟨1/10, rfl, by norm_num⟩, ⟨1, rfl, by norm_num⟩⟩
  exact absurd ht (by decide)

/-- C7 (amended): `auto_confirm_v2(features, δ, R)` returns true iff
`bm25_top1_chunk_id` and `hybrid_top1_chunk_id` are both non-null,
NONZERO and equal; `embed_margin` is defined and `≥ δ`; and
`hybrid_top1_bm25_rank` is defined and `≤ R`. -/
theorem auto_confirm_v2_iff (f : Features) (delta : ℚ) (R : ℕ) :
    autoConfirmV2 f delta R = true ↔
      (∃ c, c ≠ 0 ∧ f.bm25Top1ChunkId = some c ∧ f.hybridTop1ChunkId = some c)
      ∧ (∃ m, f.embedMargin = some m ∧ delta ≤ m)
      ∧ (∃ r, f.hybridTop1Bm25Rank = some r ∧ r ≤ R) :=
  autoConfirmV2_true_iff f delta R

/-- C9: `classify_single` with an empty candidate list returns the fixed
no-match decision with the configured model name, and no LLM request is
made. -/
theorem classify_single_empty_candidates (modelName : String)
    (parsed : ParsedResult) :
    classifySingle modelName [] parsed =
      { decision :=
          { lectureId := none, confidence := 0,
            reason := "No lecture candidates available.", studyHint := "",
            evidence := [], noMatch := true, modelName := modelName },
        llmCalled := false } := rfl

/-- C8: `classify_single_question` always fails with a `TypeError`:
`_retrieve_stage` passes the keyword `question_id`, which
`LectureRetriever.find_candidates` does not declare, so the call raises
before any candidate is retrieved. -/
theorem pipeline_retrieve_kwargs_type_error :
    findCandidatesParamNames.contains "question_id" = false
    ∧ retrieveStageKwargNames.contains "question_id" = true
    ∧ kwargsBind findCandidatesParamNames retrieveStageKwargNames = false
    ∧ ∀ (body : List Candidate) (expand : List Candidate → List Candidate)
        (judge : List Candidate → Decision),
        classifySingleQuestionPipeline body expand judge =
          Except.error PyError.typeError :=
  ⟨rfl, rfl, rfl, fun _ _ _ => rfl⟩

/-- C3 (counterexample): a strict-JSON parse result
`lecture_id: null, no_match: false` (with a nonempty candidate list)
yields a decision with `no_match = false` but `lecture_id = null`,
refuting the claimed biconditional `no_match ⇔ lecture_id is null`. -/
theorem classify_single_no_match_coherence_cx :
    ((classifySingle "m" [⟨7, "T", "B", "B > T", 1, []⟩]
        ⟨none, false, 3/10, "", "", []⟩).decision.noMatch = false)
    ∧ ((classifySingle "m" [⟨7, "T", "B", "B > T", 1, []⟩]
        ⟨none, false, 3/10, "", "", []⟩).decision.lectureId = none)
    ∧ ¬ (((classifySingle "m" [⟨7, "T", "B", "B > T", 1, []⟩]
            ⟨none, false, 3/10, "", "", []⟩).decision.noMatch = true) ↔
         ((classifySingle "m" [⟨7, "T", "B", "B > T", 1, []⟩]
            ⟨none, false, 3/10, "", "", []⟩).decision.lectureId = none)) := by
  refine ⟨rfl, rfl, fun hIff => ?_⟩
  exact absurd (hIff.mpr rfl) (by decide)

/-- C3 (amended): in `classify_single`, a parsed NON-NULL `lecture_id`
outside the candidate identifier set is repaired to
`lecture_id = null, no_match = true, evidence = []` with the parsed
confidence retained; and the coherence laws that do hold are the forward
directions: `no_match` implies null `lecture_id` and empty evidence, and
nonempty evidence implies a non-null `lecture_id` and `no_match = false`
(a parsed `lecture_id: null` with `no_match: false` survives unrepaired,
so the claimed biconditional fails). -/
theorem classify_single_post_spec (modelName : String) (cands : List Candidate)
    (parsed : ParsedResult) :
    (∀ v : Int, cands ≠ [] → parsed.lectureId = some v →
      (∀ c ∈ cands, c.id ≠ v) →
      ((classifySingle modelName cands parsed).decision.lectureId = none
       ∧ (classifySingle modelName cands parsed).decision.noMatch = true
       ∧ (classifySingle modelName cands parsed).decision.evidence = []
       ∧ (classifySingle modelName cands parsed).decision.confidence
           = parsed.confidence))
    ∧ ((classifySingle modelName cands parsed).decision.noMatch = true →
        (classifySingle modelName cands parsed).decision.lectureId = none
        ∧ (classifySingle modelName cands parsed).decision.evidence = [])
    ∧ ((classifySingle modelName cands parsed).decision.evidence ≠ [] →
        (classifySingle modelName cands parsed).decision.lectureId ≠ none
        ∧ (classifySingle modelName cands parsed).decision.noMatch = false) := by
  by_cases hc : cands = []
  · subst hc
    exact ⟨fun v hne _ _ => absurd rfl hne,
           fun _ => ⟨rfl, rfl⟩,
           fun hne => absurd rfl hne⟩
  · cases hnm : parsed.noMatch with
    | true =>
      refine ⟨fun v _ _ _ => ?_, fun _ => ?_, fun hne => ?_⟩ <;>
        simp [classifySingle, hc, hnm] at *
    | false =>
      cases hl : parsed.lectureId with
      | none =>
        refine ⟨fun v _ hv _ => ?_, fun hm => ?_, fun hne => ?_⟩ <;>
          simp [classifySingle, hc, hnm, hl] at *
      | some v =>
        cases hmem : cands.any (fun c => c.id = v) with
        | true =>
          obtain ⟨c₀, hc₀, hcid⟩ := List.any_eq_true.mp hmem
          refine ⟨fun w _ hw hall => ?_, fun hm => ?_, fun hne => ?_⟩
          · rw [Option.some.injEq] at hw
            subst hw
            exact absurd (of_decide_eq_true hcid) (hall c₀ hc₀)
          · rw [show (classifySingle modelName cands parsed).decision.noMatch
                  = false from by simp [classifySingle, hc, hnm, hl, hmem]]
              at hm
            exact absurd hm (by simp)
          · constructor
            · simp [classifySingle, hc, hnm, hl, hmem]
            · simp [classifySingle, hc, hnm, hl, hmem]
        | false =>
          refine ⟨fun w _ _ _ => ?_, fun _ => ?_, fun hne => ?_⟩ <;>
            simp [classifySingle, hc, hnm, hl, hmem] at *

/-- Witness for the amended C3 theorem: the S2 scenario — candidates
`[{id: 7}]`, parsed judge output `lecture_id = 5, confidence = 9/10,
no_match = false` — is repaired to a null, no-match, evidence-free
decision that keeps confidence `9/10`. -/
theorem classify_single_post_spec_witness :
    (([⟨7, "T", "B", "B > T", 1, []⟩] : List Candidate) ≠ []
     ∧ (∀ c ∈ ([⟨7, "T", "B", "B > T", 1, []⟩] : List Candidate), c.id ≠ 5))
    ∧ ((classifySingle "m" [⟨7, "T", "B", "B > T", 1, []⟩]
          ⟨some 5, false, 9/10, "r", "s", []⟩).decision.lectureId = none
       ∧ (classifySingle "m" [⟨7, "T", "B", "B > T", 1, []⟩]
          ⟨some 5, false, 9/10, "r", "s", []⟩).decision.noMatch = true
       ∧ (classifySingle "m" [⟨7, "T", "B", "B > T", 1, []⟩]
          ⟨some 5, false, 9/10, "r", "s", []⟩).decision.evidence = []
       ∧ (classifySingle "m" [⟨7, "T", "B", "B > T", 1, []⟩]
          ⟨some 5, false, 9/10, "r", "s", []⟩).decision.confidence = 9/10) :=
  ⟨⟨by decide, by decide⟩,
   (classify_single_post_spec "m" [⟨7, "T", "B", "B > T", 1, []⟩]
      ⟨some 5, false, 9/10, "r", "s", []⟩).1 5 (by decide) rfl (by decide)⟩

/-- C1: whenever the retrieval features of a question satisfy the
auto-confirm predicate, the evaluation loop returns — without any LLM
call — the decision whose lecture is the lecture of the agreed top chunk,
with confidence `1.0` and model name `"auto_confirm_v2"`.
`lectureOf` names the chunk-to-lecture assignment; the hypotheses say
that the features carry the hybrid top-1 chunk and its lecture. -/
theorem eval_auto_confirm_short_circuit (f : Features) (delta : ℚ) (R : ℕ)
    (llmOutcome : EvalDecision) (lectureOf : Int → Option Int) (c : Int)
    (hc : f.hybridTop1ChunkId = some c)
    (hl : f.hybridTop1LectureId = lectureOf c)
    (ha : autoConfirmV2 f delta R = true) :
    f.bm25Top1ChunkId = some c
    ∧ runEvalDecision f delta R llmOutcome =
        { suggestedLectureId := lectureOf c, finalLectureId := lectureOf c,
          confidence := 1, modelName := "auto_confirm_v2",
          usedLLM := false } := by
  obtain ⟨⟨c₀, -, hb₀, hh₀⟩, -, -⟩ := (autoConfirmV2_true_iff f delta R).mp ha
  rw [hc, Option.some.injEq] at hh₀
  subst hh₀
  refine ⟨hb₀, ?_⟩
  rw [runEvalDecision, if_pos ha, hl]

/-- Witness for the C1 theorem: the S1 feature instance
(`bm25_top1 = hybrid_top1 = 42`, `embed_margin = 0.07`,
`hybrid_top1_bm25_rank = 2`, `δ = 0.05`, `R = 5`) short-circuits to
lecture 7 with confidence 1 and model `"auto_confirm_v2"`. -/
theorem eval_auto_confirm_short_circuit_witness :
    (evalFeat42.hybridTop1ChunkId = some 42
     ∧ autoConfirmV2 evalFeat42 (1/20) 5 = true)
    ∧ (evalFeat42.bm25Top1ChunkId = some 42
       ∧ runEvalDecision evalFeat42 (1/20) 5 ⟨none, none, 0, "", true⟩ =
           { suggestedLectureId := some 7, finalLectureId := some 7,
             confidence := 1, modelName := "auto_confirm_v2",
             usedLLM := false }) :=
  ⟨⟨rfl, by norm_num [autoConfirmV2, evalFeat42]⟩,
   eval_auto_confirm_short_circuit evalFeat42 (1/20) 5 ⟨none, none, 0, "", true⟩
     (fun i => if i = 42 then some 7 else none) 42 rfl (by decide)
     (by norm_num [autoConfirmV2, evalFeat42])⟩

/-- C10: whenever the `should_apply` filter passes,
`apply_classification_results` rebuilds the stored
`QuestionChunkMatch` rows of the question from the payload evidence alone — every
previously persisted evidence row is discarded regardless of whether an
assignment was committed; in particular a no-match result (null
`lecture_id`, empty evidence) under `apply_mode = "all"` leaves
`lecture_id` unchanged and deletes all evidence rows. -/
theorem apply_frame_effect (env : ApplyEnv) (mode : ApplyMode) (jobId : Int)
    (now : ℕ) (q : QuestionState) (r : PayloadResult)
    (hsa : shouldApply mode q (lookupLecture env r.lectureId) = true) :
    ((applyOne env mode jobId now q r).1.matchRows
      = buildMatches env jobId q.id (lookupLecture env r.lectureId)
          r.confidence r.evidence)
    ∧ (r.lectureId = none → r.noMatch = true → r.evidence = [] →
        (applyOne env mode jobId now q r).1.matchRows = []
        ∧ (applyOne env mode jobId now q r).1.lectureId = q.lectureId) := by
  constructor
  · simp only [applyOne, hsa]
    cases hL : lookupLecture env r.lectureId with
    | none => simp
    | some p => cases hnm : r.noMatch <;> split_ifs <;> simp_all
  · intro hlid hnm hev
    have hLnone : lookupLecture env r.lectureId = none := by
      rw [hlid]; rfl
    rw [hLnone] at hsa
    constructor
    · simp [applyOne, hsa, hLnone, hev, buildMatches]
    · simp [applyOne, hsa, hLnone]

/-- Witness for the C10 theorem: applying a no-match result under
`apply_mode = "all"` to a question that has one persisted evidence row
empties its evidence rows and keeps `lecture_id = 2`. -/
theorem apply_frame_effect_witness :
    (shouldApply .all
        ⟨55, some 2, false, "manual", none, none, 0, "", "", none,
          [⟨55, 2, 999, none, none, none, "old", 1, "ai", 3, true⟩]⟩
        (lookupLecture ⟨fun _ => none, fun _ => none⟩
          (⟨none, true, 0, "none", "m", []⟩ : PayloadResult).lectureId) = true)
    ∧ ((applyOne ⟨fun _ => none, fun _ => none⟩ .all 77 10
          ⟨55, some 2, false, "manual", none, none, 0, "", "", none,
            [⟨55, 2, 999, none, none, none, "old", 1, "ai", 3, true⟩]⟩
          ⟨none, true, 0, "none", "m", []⟩).1.matchRows = []
       ∧ (applyOne ⟨fun _ => none, fun _ => none⟩ .all 77 10
          ⟨55, some 2, false, "manual", none, none, 0, "", "", none,
            [⟨55, 2, 999, none, none, none, "old", 1, "ai", 3, true⟩]⟩
          ⟨none, true, 0, "none", "m", []⟩).1.lectureId = some 2) :=
  ⟨rfl,
   (apply_frame_effect ⟨fun _ => none, fun _ => none⟩ .all 77 10
      ⟨55, some 2, false, "manual", none, none, 0, "", "", none,
        [⟨55, 2, 999, none, none, none, "old", 1, "ai", 3, true⟩]⟩
      ⟨none, true, 0, "none", "m", []⟩ rfl).2 rfl rfl rfl⟩

/-- The update `upsertAdd` adds `v` at key `k` and leaves other values
unchanged. -/
theorem alistVal_upsertAdd (m : List (Int × ℚ)) (k : Int) (v : ℚ) (c : Int) :
    alistVal (upsertAdd m k v) c = alistVal m c + (if c = k then v else 0) := by
  induction m with
  | nil =>
    by_cases h : c = k
    · subst h
      simp [upsertAdd, alistVal, alistGet]
    · simp [upsertAdd, alistVal, alistGet, h, Ne.symm h]
  | cons hd t ih =>
    obtain ⟨k₀, v₀⟩ := hd
    by_cases hk : k₀ = k
    · subst hk
      by_cases hc : k₀ = c
      · subst hc
        simp [upsertAdd, alistVal, alistGet]
      · simp [upsertAdd, alistVal, alistGet, hc, Ne.symm hc]
    · by_cases hc : k₀ = c
      · subst hc
        simp [upsertAdd, alistVal, alistGet, hk, Ne.symm hk]
      · simp only [upsertAdd, if_neg hk]
        simp only [alistVal, alistGet, if_neg hc]
        exact ih

/-- Folding one ranked list into the score map adds exactly the
positional contributions of each chunk. -/
theorem alistVal_addRanks (K : ℕ) (l : List Hit) :
    ∀ (i : ℕ) (m : List (Int × ℚ)) (c : Int),
    alistVal (addRanks K l i m) c = alistVal m c + rrfTermSum K c l i := by
  induction l with
  | nil => intro i m c; simp [addRanks, rrfTermSum]
  | cons h t ih =>
    intro i m c
    cases hco : h.chunkId with
    | none => simp [addRanks, rrfTermSum, hco, ih]
    | some a =>
      simp only [addRanks, hco, rrfTermSum, ih, alistVal_upsertAdd]
      by_cases hac : a = c <;> simp [hac, eq_comm] <;> ring

/-- A chunk id that never occurs contributes nothing. -/
theorem rrfTermSum_of_not_mem (K : ℕ) (c : Int) (l : List Hit) :
    ∀ i : ℕ, c ∉ hitIds l → rrfTermSum K c l i = 0 := by
  induction l with
  | nil => intro i _; rfl
  | cons h t ih =>
    intro i hmem
    cases hco : h.chunkId with
    | none =>
      simp only [hitIds, List.filterMap_cons, hco] at hmem
      simp [rrfTermSum, hco, ih (i + 1) hmem]
    | some a =>
      simp only [hitIds, List.filterMap_cons, hco, List.mem_cons] at hmem
      push_neg at hmem
      simp [rrfTermSum, hco, Ne.symm hmem.1, ih (i + 1) hmem.2, hitIds]

/-- On a duplicate-free list the positional sum collapses to the single
`1/(K + rank + 1)` term of the claim. -/
theorem rrfTermSum_eq_rrfTerm (K : ℕ) (c : Int) (l : List Hit) :
    ∀ i : ℕ, (hitIds l).Nodup → rrfTermSum K c l i = rrfTerm K c l i := by
  induction l with
  | nil => intro i _; rfl
  | cons h t ih =>
    intro i hnd
    cases hco : h.chunkId with
    | none =>
      simp only [hitIds, List.filterMap_cons, hco] at hnd
      simp [rrfTermSum, rrfTerm, hco, ih (i + 1) hnd]
    | some a =>
      simp only [hitIds, List.filterMap_cons, hco, List.nodup_cons] at hnd
      by_cases hac : a = c
      · subst hac
        simp [rrfTermSum, rrfTerm, hco,
          rrfTermSum_of_not_mem K a t (i + 1) hnd.1]
      · simp [rrfTermSum, rrfTerm, hco, Ne.symm hac, hac,
          ih (i + 1) hnd.2]

/-- Keys of the score map after an upsert. -/
theorem mem_keysOf_upsertAdd (m : List (Int × ℚ)) (k : Int) (v : ℚ) (x : Int) :
    x ∈ keysOf (upsertAdd m k v) → x = k ∨ x ∈ keysOf m := by
  induction m with
  | nil => simp [upsertAdd, keysOf]
  | cons hd t ih =>
    obtain ⟨k₀, v₀⟩ := hd
    by_cases hk : k₀ = k
    · subst hk
      simp [upsertAdd, keysOf]
    · simp only [upsertAdd, if_neg hk, keysOf, List.map_cons, List.mem_cons]
      rintro (h | h)
      · exact Or.inr (Or.inl h)
      · rcases ih h with h | h
        · exact Or.inl h
        · exact Or.inr (Or.inr h)

/-- The update `upsertAdd` keeps the key list duplicate-free. -/
theorem keysOf_upsertAdd_nodup (m : List (Int × ℚ)) (k : Int) (v : ℚ) :
    (keysOf m).Nodup → (keysOf (upsertAdd m k v)).Nodup := by
  induction m with
  | nil => intro _; simp [upsertAdd, keysOf]
  | cons hd t ih =>
    obtain ⟨k₀, v₀⟩ := hd
    intro hnd
    simp only [keysOf, List.map_cons, List.nodup_cons] at hnd
    by_cases hk : k₀ = k
    · subst hk
      simpa [upsertAdd, keysOf] using hnd
    · simp only [upsertAdd, if_neg hk, keysOf, List.map_cons, List.nodup_cons]
      refine ⟨fun hmem => ?_, ih hnd.2⟩
      rcases mem_keysOf_upsertAdd t k v k₀ hmem with h | h
      · exact hk h
      · exact hnd.1 h

/-- The fold `addRanks` keeps the key list duplicate-free. -/
theorem keysOf_addRanks_nodup (K : ℕ) (l : List Hit) :
    ∀ (i : ℕ) (m : List (Int × ℚ)),
    (keysOf m).Nodup → (keysOf (addRanks K l i m)).Nodup := by
  induction l with
  | nil => intro i m h; exact h
  | cons h t ih =>
    intro i m hnd
    cases hco : h.chunkId with
    | none => simpa [addRanks, hco] using ih (i + 1) m hnd
    | some a =>
      simpa [addRanks, hco] using
        ih (i + 1) _ (keysOf_upsertAdd_nodup m a _ hnd)

/-- With duplicate-free keys, membership determines the looked-up value. -/
theorem alistVal_of_mem (m : List (Int × ℚ)) :
    ∀ (c : Int) (s : ℚ), (keysOf m).Nodup → (c, s) ∈ m → alistVal m c = s := by
  induction m with
  | nil => intro c s _ h; cases h
  | cons hd t ih =>
    obtain ⟨k₀, v₀⟩ := hd
    intro c s hnd hmem
    simp only [keysOf, List.map_cons, List.nodup_cons] at hnd
    rcases List.mem_cons.mp hmem with h | h
    · obtain ⟨h1, h2⟩ := Prod.mk.injEq .. ▸ h
      subst h1; subst h2
      simp [alistVal, alistGet]
    · have hne : k₀ ≠ c := by
        intro he
        subst he
        exact hnd.1 (List.mem_map.mpr ⟨(k₀, s), h, rfl⟩)
      simp only [alistVal, alistGet, if_neg hne]
      exact ih c s hnd.2 h

/-- The BM25-only fallback list is ordered by descending `rrf_score`. -/
theorem pairwise_enumFrom_rrf (K : ℕ) (l : List Hit) :
    ∀ i : ℕ,
    List.Pairwise (fun a b : FHit => b.rrfScore ≤ a.rrfScore)
      ((List.enumFrom i l).map fun p =>
        { chunkId := p.2.chunkId, lectureId := p.2.lectureId,
          pageStart := p.2.pageStart, pageEnd := p.2.pageEnd,
          snippet := p.2.snippet, rrfScore := 1 / (K + p.1 + 1 : ℚ) }) := by
  induction l with
  | nil => intro i; simp
  | cons h t ih =>
    intro i
    rw [List.enumFrom_cons, List.map_cons]
    refine List.Pairwise.cons ?_ (ih (i + 1))
    intro b hb
    obtain ⟨⟨j, x⟩, hjx, rfl⟩ := List.mem_map.mp hb
    obtain ⟨hij, -, -⟩ := List.mem_enumFrom hjx
    have hpos : (0 : ℚ) < K + i + 1 := by positivity
    have hle : (K : ℚ) + i + 1 ≤ K + j + 1 := by
      have : (i : ℚ) ≤ j := by exact_mod_cast Nat.le_of_succ_le hij
      linarith
    exact one_div_le_one_div_of_le hpos hle

/-- C2: in `search_chunks_hybrid_rrf` (with duplicate-free chunk ids in
both input lists), the `rrf_score` of every fused hit is the sum of
`1/(rrf_k + rank + 1)` over the lists in which the chunk appears (0-based
rank); with an empty dense list the output is exactly the BM25 list
rescored by `1/(rrf_k + rank + 1)`; the output is ordered by descending
`rrf_score`; and the S4 instance (bm25 ranks A,B,C; embedding ranks
B,D,A; K = 60) fuses to scores `A = 1/61+1/63`, `B = 1/62+1/61`,
`C = 1/63`, `D = 1/62` in order B, A, D, C. -/
theorem hybrid_rrf_spec (K topN : ℕ) (bm25Chunks embChunks : List Hit)
    (hbm : (hitIds bm25Chunks).Nodup) (hemb : (hitIds embChunks).Nodup) :
    (embChunks ≠ [] →
      ∀ h ∈ searchChunksHybridRRF K topN bm25Chunks embChunks,
        ∃ c, h.chunkId = some c
          ∧ h.rrfScore = rrfTerm K c bm25Chunks 0 + rrfTerm K c embChunks 0)
    ∧ (embChunks = [] →
        searchChunksHybridRRF K topN bm25Chunks embChunks
          = bm25Chunks.enum.map fun p =>
              { chunkId := p.2.chunkId, lectureId := p.2.lectureId,
                pageStart := p.2.pageStart, pageEnd := p.2.pageEnd,
                snippet := p.2.snippet, rrfScore := 1 / (K + p.1 + 1 : ℚ) })
    ∧ List.Pairwise (fun a b : FHit => b.rrfScore ≤ a.rrfScore)
        (searchChunksHybridRRF K topN bm25Chunks embChunks)
    ∧ (searchChunksHybridRRF 60 80
          [⟨some 1, some 11, none, none, "", 0⟩,
           ⟨some 2, some 12, none, none, "", 0⟩,
           ⟨some 3, some 13, none, none, "", 0⟩]
          [⟨some 2, some 12, none, none, "", 0⟩,
           ⟨some 4, some 14, none, none, "", 0⟩,
           ⟨some 1, some 11, none, none, "", 0⟩]).map
            (fun h => (h.chunkId, h.rrfScore))
        = [(some 2, 1/62 + 1/61), (some 1, 1/61 + 1/63),
           (some 4, (1 : ℚ)/62), (some 3, 1/63)] := by
  have htrans : ∀ a b c : FHit,
      decide (b.rrfScore ≤ a.rrfScore) = true →
      decide (c.rrfScore ≤ b.rrfScore) = true →
      decide (c.rrfScore ≤ a.rrfScore) = true := fun a b c hab hbc =>
    decide_eq_true (le_trans (of_decide_eq_true hbc) (of_decide_eq_true hab))
  have htotal : ∀ a b : FHit,
      (decide (b.rrfScore ≤ a.rrfScore) || decide (a.rrfScore ≤ b.rrfScore))
        = true := by
    intro a b
    simp only [Bool.or_eq_true, decide_eq_true_eq]
    exact le_total b.rrfScore a.rrfScore
  refine ⟨?_, ?_, ?_, ?_⟩
  · intro hne h hmem
    by_cases hb : bm25Chunks = []
    · simp [searchChunksHybridRRF, hb] at hmem
    · simp only [searchChunksHybridRRF, if_neg hb, if_neg hne] at hmem
      have hmem2 := List.take_subset _ _ hmem
      rw [(List.mergeSort_perm _ _).mem_iff] at hmem2
      obtain ⟨⟨c, s⟩, hcs, rfl⟩ := List.mem_map.mp hmem2
      refine ⟨c, rfl, ?_⟩
      have hkeys :
          (keysOf (addRanks K embChunks 0 (addRanks K bm25Chunks 0 []))).Nodup :=
        keysOf_addRanks_nodup K embChunks 0 _
          (keysOf_addRanks_nodup K bm25Chunks 0 [] (by simp [keysOf]))
      have hval := alistVal_of_mem _ c s hkeys hcs
      rw [alistVal_addRanks, alistVal_addRanks] at hval
      simp only [alistVal, alistGet, Option.getD_none] at hval
      rw [← hval, rrfTermSum_eq_rrfTerm K c bm25Chunks 0 hbm,
        rrfTermSum_eq_rrfTerm K c embChunks 0 hemb]
      ring
  · intro hemb0
    subst hemb0
    by_cases hb : bm25Chunks = []
    · subst hb; simp [searchChunksHybridRRF]
    · simp [searchChunksHybridRRF, hb]
  · by_cases hb : bm25Chunks = []
    · simp [searchChunksHybridRRF, hb]
    · by_cases he : embChunks = []
      · simp only [searchChunksHybridRRF, if_neg hb, if_pos he]
        rw [List.enum_eq_enumFrom]
        exact pairwise_enumFrom_rrf K bm25Chunks 0
      · simp only [searchChunksHybridRRF, if_neg hb, if_neg he]
        refine List.Pairwise.sublist (List.take_sublist _ _) ?_
        exact (List.sorted_mergeSort htrans htotal _).imp
          fun hab => of_decide_eq_true hab
  · rw [searchChunksHybridRRF, if_neg (by simp), if_neg (by simp)]
    norm_num [addRanks, upsertAdd, addMetas, putFirst, alistGet,
      List.mergeSort, List.merge]

/-- Witness for the C2 theorem, instantiated at the S4 lists: their chunk
ids are duplicate-free and the head of the fused output carries chunk B
with score `1/62 + 1/61 = rrfTerm(bm25, B) + rrfTerm(emb, B)`. -/
theorem hybrid_rrf_spec_witness :
    ((hitIds [⟨some 1, some 11, none, none, "", 0⟩,
              ⟨some 2, some 12, none, none, "", 0⟩,
              ⟨some 3, some 13, none, none, "", 0⟩]).Nodup
     ∧ (hitIds [⟨some 2, some 12, none, none, "", 0⟩,
                ⟨some 4, some 14, none, none, "", 0⟩,
                ⟨some 1, some 11, none, none, "", 0⟩]).Nodup)
    ∧ (searchChunksHybridRRF 60 80
          [⟨some 1, some 11, none, none, "", 0⟩,
           ⟨some 2, some 12, none, none, "", 0⟩,
           ⟨some 3, some 13, none, none, "", 0⟩]
          [⟨some 2, some 12, none, none, "", 0⟩,
           ⟨some 4, some 14, none, none, "", 0⟩,
           ⟨some 1, some 11, none, none, "", 0⟩]).map
            (fun h => (h.chunkId, h.rrfScore))
        = [(some 2, 1/62 + 1/61), (some 1, 1/61 + 1/63),
           (some 4, (1 : ℚ)/62), (some 3, 1/63)] :=
  ⟨⟨by decide, by decide⟩,
   (hybrid_rrf_spec 60 80
      [⟨some 1, some 11, none, none, "", 0⟩,
       ⟨some 2, some 12, none, none, "", 0⟩,
       ⟨some 3, some 13, none, none, "", 0⟩]
      [⟨some 2, some 12, none, none, "", 0⟩,
       ⟨some 4, some 14, none, none, "", 0⟩,
       ⟨some 1, some 11, none, none, "", 0⟩]
      (by decide) (by decide)).2.2.2⟩

/-- The update `perLectureAdd` adds the per-chunk score at the given key and leaves
other aggregate scores unchanged. -/
theorem plVal_perLectureAdd (m : List (Int × (ℚ × List EvItem))) (k : Int)
    (e : EvItem) (c : Int) :
    plVal (perLectureAdd m k e) c = plVal m c + (if c = k then e.score else 0) := by
  induction m with
  | nil =>
    by_cases h : c = k
    · subst h
      simp [perLectureAdd, plVal, alistGet]
    · simp [perLectureAdd, plVal, alistGet, h, Ne.symm h]
  | cons hd t ih =>
    obtain ⟨k₀, s₀, ev₀⟩ := hd
    by_cases hk : k₀ = k
    · subst hk
      by_cases hc : k₀ = c
      · subst hc
        simp [perLectureAdd, plVal, alistGet]
      · simp [perLectureAdd, plVal, alistGet, hc, Ne.symm hc]
    · by_cases hc : k₀ = c
      · subst hc
        simp [perLectureAdd, plVal, alistGet, hk, Ne.symm hk]
      · simp only [perLectureAdd, if_neg hk]
        simp only [plVal, alistGet, if_neg hc]
        exact ih

/-- Folding the chunk list into `per_lecture` accumulates exactly the
negated-bm25 sum of the member chunks of each lecture. -/
theorem plVal_buildPerLecture (l : List Hit) :
    ∀ (m : List (Int × (ℚ × List EvItem))) (c : Int),
    plVal (buildPerLecture l m) c = plVal m c + lectureScoreSum c l := by
  induction l with
  | nil => intro m c; simp [buildPerLecture, lectureScoreSum]
  | cons h t ih =>
    intro m c
    cases hco : h.lectureId with
    | none => simp [buildPerLecture, lectureScoreSum, hco, ih]
    | some a =>
      simp only [buildPerLecture, hco, lectureScoreSum, ih, plVal_perLectureAdd]
      by_cases hac : a = c <;> simp [hac, eq_comm] <;> ring

/-- Keys of the `per_lecture` map after one aggregation step. -/
theorem mem_keysOf_perLectureAdd (m : List (Int × (ℚ × List EvItem))) (k : Int)
    (e : EvItem) (x : Int) :
    x ∈ keysOf (perLectureAdd m k e) → x = k ∨ x ∈ keysOf m := by
  induction m with
  | nil => simp [perLectureAdd, keysOf]
  | cons hd t ih =>
    obtain ⟨k₀, s₀, ev₀⟩ := hd
    by_cases hk : k₀ = k
    · subst hk
      simp [perLectureAdd, keysOf]
    · simp only [perLectureAdd, if_neg hk, keysOf, List.map_cons, List.mem_cons]
      rintro (h | h)
      · exact Or.inr (Or.inl h)
      · rcases ih h with h | h
        · exact Or.inl h
        · exact Or.inr (Or.inr h)

/-- The update `perLectureAdd` keeps the key list duplicate-free. -/
theorem keysOf_perLectureAdd_nodup (m : List (Int × (ℚ × List EvItem)))
    (k : Int) (e : EvItem) :
    (keysOf m).Nodup → (keysOf (perLectureAdd m k e)).Nodup := by
  induction m with
  | nil => intro _; simp [perLectureAdd, keysOf]
  | cons hd t ih =>
    obtain ⟨k₀, s₀, ev₀⟩ := hd
    intro hnd
    simp only [keysOf, List.map_cons, List.nodup_cons] at hnd
    by_cases hk : k₀ = k
    · subst hk
      simpa [perLectureAdd, keysOf] using hnd
    · simp only [perLectureAdd, if_neg hk, keysOf, List.map_cons, List.nodup_cons]
      refine ⟨fun hmem => ?_, ih hnd.2⟩
      rcases mem_keysOf_perLectureAdd t k e k₀ hmem with h | h
      · exact hk h
      · exact hnd.1 h

/-- The fold `buildPerLecture` keeps the key list duplicate-free. -/
theorem keysOf_buildPerLecture_nodup (l : List Hit) :
    ∀ m : List (Int × (ℚ × List EvItem)),
    (keysOf m).Nodup → (keysOf (buildPerLecture l m)).Nodup := by
  induction l with
  | nil => intro m h; exact h
  | cons h t ih =>
    intro m hnd
    cases hco : h.lectureId with
    | none => simpa [buildPerLecture, hco] using ih m hnd
    | some a =>
      simpa [buildPerLecture, hco] using
        ih _ (keysOf_perLectureAdd_nodup m a _ hnd)

/-- With duplicate-free keys, membership determines the aggregate score. -/
theorem plVal_of_mem (m : List (Int × (ℚ × List EvItem))) :
    ∀ (c : Int) (s : ℚ) (ev : List EvItem),
    (keysOf m).Nodup → (c, (s, ev)) ∈ m → plVal m c = s := by
  induction m with
  | nil => intro c s ev _ h; cases h
  | cons hd t ih =>
    obtain ⟨k₀, s₀, ev₀⟩ := hd
    intro c s ev hnd hmem
    simp only [keysOf, List.map_cons, List.nodup_cons] at hnd
    rcases List.mem_cons.mp hmem with h | h
    · obtain ⟨h1, h2⟩ := Prod.mk.injEq .. ▸ h
      subst h1
      obtain ⟨h3, h4⟩ := Prod.mk.injEq .. ▸ h2
      subst h3
      simp [plVal, alistGet]
    · have hne : k₀ ≠ c := by
        intro he
        subst he
        exact hnd.1 (List.mem_map.mpr ⟨(k₀, (s, ev)), h, rfl⟩)
      simp only [plVal, alistGet, if_neg hne]
      exact ih c s ev hnd.2 h

/-- C6 (counterexample): two chunks with equal aggregate score `1`,
lecture 10 appearing before lecture 3, come out in order `[10, 3]` —
the stable sort keeps first-appearance order, it does NOT break the tie
by the lower lecture identifier. -/
theorem aggregate_tiebreak_cx :
    ((aggregateCandidates (fun _ => some ⟨"T", some "B"⟩)
        [⟨some 1, some 10, none, none, "s", -1⟩,
         ⟨some 2, some 3, none, none, "s", -1⟩] 8 3).map
          (fun c => (c.id, c.score)) = [(10, 1), (3, 1)])
    ∧ ¬ List.Pairwise
        (fun a b : Candidate =>
          b.score < a.score ∨ (a.score = b.score ∧ a.id < b.id))
        (aggregateCandidates (fun _ => some ⟨"T", some "B"⟩)
          [⟨some 1, some 10, none, none, "s", -1⟩,
           ⟨some 2, some 3, none, none, "s", -1⟩] 8 3) := by
  have hout :
      aggregateCandidates (fun _ => some ⟨"T", some "B"⟩)
        [⟨some 1, some 10, none, none, "s", -1⟩,
         ⟨some 2, some 3, none, none, "s", -1⟩] 8 3
      = [⟨10, "T", "B", "B > T", 1, [⟨none, none, "s", some 1⟩]⟩,
         ⟨3, "T", "B", "B > T", 1, [⟨none, none, "s", some 2⟩]⟩] := by
    rw [aggregateCandidates, if_neg (by simp)]
    norm_num [candidateRows, buildPerLecture, perLectureAdd,
      List.filterMap_cons, List.filterMap_nil, List.mergeSort, List.merge]
    rfl
  rw [hout]
  refine ⟨by norm_num, fun hpw => ?_⟩
  rw [List.pairwise_cons] at hpw
  have := hpw.1 _ (List.mem_cons_self _ _)
  norm_num at this

/-- C6 (amended): `aggregate_candidates` scores each lecture as the sum
of the negated `bm25_score` of its member chunks, returns candidates
sorted by that aggregate score in descending order truncated to
`top_k_lectures`; ties between equal-score lectures keep their order in
the unsorted per-lecture rows (first appearance in the chunk list, by
sort stability), not the lower lecture identifier. -/
theorem aggregate_candidates_spec (cat : Int → Option LectureInfo)
    (chunks : List Hit) (topK epl : ℕ) :
    (∀ cand ∈ aggregateCandidates cat chunks topK epl,
        cand.score = lectureScoreSum cand.id chunks)
    ∧ List.Pairwise (fun a b : Candidate => b.score ≤ a.score)
        (aggregateCandidates cat chunks topK epl)
    ∧ (aggregateCandidates cat chunks topK epl).length ≤ topK
    ∧ (∀ a b : Candidate, a.score = b.score →
        [a, b].Sublist (candidateRows cat chunks epl) →
        [a, b].Sublist ((candidateRows cat chunks epl).mergeSort
          fun x y => decide (y.score ≤ x.score))) := by
  have htrans : ∀ a b c : Candidate,
      decide (b.score ≤ a.score) = true →
      decide (c.score ≤ b.score) = true →
      decide (c.score ≤ a.score) = true := fun a b c hab hbc =>
    decide_eq_true (le_trans (of_decide_eq_true hbc) (of_decide_eq_true hab))
  have htotal : ∀ a b : Candidate,
      (decide (b.score ≤ a.score) || decide (a.score ≤ b.score)) = true := by
    intro a b
    simp only [Bool.or_eq_true, decide_eq_true_eq]
    exact le_total b.score a.score
  refine ⟨?_, ?_, ?_, ?_⟩
  · intro cand hmem
    by_cases hc : chunks = []
    · simp [aggregateCandidates, hc] at hmem
    · simp only [aggregateCandidates, if_neg hc] at hmem
      have hmem2 := List.take_subset _ _ hmem
      rw [(List.mergeSort_perm _ _).mem_iff] at hmem2
      simp only [candidateRows] at hmem2
      obtain ⟨⟨lid, s, ev⟩, hp, heq⟩ := List.mem_filterMap.mp hmem2
      rcases hcat : cat lid with _ | lec
      · simp [hcat] at heq
      · rw [hcat] at heq
        simp only [Option.some.injEq] at heq
        subst heq
        have hkeys := keysOf_buildPerLecture_nodup chunks [] (by simp [keysOf])
        have hv := plVal_of_mem _ lid s ev hkeys hp
        rw [plVal_buildPerLecture] at hv
        simp only [plVal, alistGet, Option.map_none, Option.getD_none,
          zero_add] at hv
        simpa using hv.symm
  · by_cases hc : chunks = []
    · simp [aggregateCandidates, hc]
    · simp only [aggregateCandidates, if_neg hc]
      refine List.Pairwise.sublist (List.take_sublist _ _) ?_
      exact (List.sorted_mergeSort htrans htotal _).imp
        fun hab => of_decide_eq_true hab
  · by_cases hc : chunks = []
    · simp [aggregateCandidates, hc]
    · simp only [aggregateCandidates, if_neg hc]
      exact List.length_take_le _ _
  · intro a b hsc hsub
    exact List.mergeSort_stable_pair htrans htotal
      (decide_eq_true (le_of_eq hsc.symm)) hsub

/-- Witness for the amended C6 theorem: the lecture-10 candidate of a
two-chunk input is a member of the output and its aggregate score `1`
is the negated-bm25 sum of its member chunks. -/
theorem aggregate_candidates_spec_witness :
    ((⟨10, "T", "B", "B > T", 1, [⟨none, none, "s", some 1⟩]⟩ : Candidate) ∈
        aggregateCandidates (fun _ => some ⟨"T", some "B"⟩)
          [⟨some 1, some 10, none, none, "s", -1⟩,
           ⟨some 2, some 3, none, none, "s", -1⟩] 8 3)
    ∧ (⟨10, "T", "B", "B > T", 1,
          [⟨none, none, "s", some 1⟩]⟩ : Candidate).score
        = lectureScoreSum 10
            [⟨some 1, some 10, none, none, "s", -1⟩,
             ⟨some 2, some 3, none, none, "s", -1⟩] := by
  have hmem :
      (⟨10, "T", "B", "B > T", 1, [⟨none, none, "s", some 1⟩]⟩ : Candidate) ∈
        aggregateCandidates (fun _ => some ⟨"T", some "B"⟩)
          [⟨some 1, some 10, none, none, "s", -1⟩,
           ⟨some 2, some 3, none, none, "s", -1⟩] 8 3 := by
    rw [aggregateCandidates, if_neg (by simp)]
    norm_num [candidateRows, buildPerLecture, perLectureAdd,
      List.filterMap_cons, List.filterMap_nil, List.mergeSort, List.merge]
    rfl
  exact ⟨hmem,
    (aggregate_candidates_spec (fun _ => some ⟨"T", some "B"⟩)
      [⟨some 1, some 10, none, none, "s", -1⟩,
       ⟨some 2, some 3, none, none, "s", -1⟩] 8 3).1 _ hmem⟩

/-- One committed question step: counters advance together, everything
else is untouched. -/
theorem stepQuestion_fields (s : JobState) (o : QOutcome) :
    (stepQuestion s o).processedCount = s.processedCount + 1
    ∧ (stepQuestion s o).successCount + (stepQuestion s o).failedCount
        = s.successCount + s.failedCount + 1
    ∧ (stepQuestion s o).totalCount = s.totalCount
    ∧ (stepQuestion s o).status = s.status
    ∧ (stepQuestion s o).completedAt = s.completedAt := by
  cases o <;> simp [stepQuestion] <;> omega

/-- Counter bookkeeping across a run of committed question steps. -/
theorem foldl_stepQuestion_fields (pre : List QOutcome) :
    ∀ s : JobState,
    (pre.foldl stepQuestion s).processedCount = s.processedCount + pre.length
    ∧ (pre.foldl stepQuestion s).successCount
        + (pre.foldl stepQuestion s).failedCount
        = s.successCount + s.failedCount + pre.length
    ∧ (pre.foldl stepQuestion s).totalCount = s.totalCount
    ∧ (pre.foldl stepQuestion s).status = s.status
    ∧ (pre.foldl stepQuestion s).completedAt = s.completedAt := by
  induction pre with
  | nil => intro s; simp
  | cons o t ih =>
    intro s
    obtain ⟨h1, h2, h3, h4, h5⟩ := stepQuestion_fields s o
    obtain ⟨g1, g2, g3, g4, g5⟩ := ih (stepQuestion s o)
    simp only [List.foldl_cons, List.length_cons]
    exact ⟨by omega, by omega, by rw [g3, h3], by rw [g4, h4],
      by rw [g5, h5]⟩

/-- Every state in the scanned run is a fold of a shorter outcome run. -/
theorem mem_scanl_stepQuestion (x : JobState) :
    ∀ (l : List QOutcome) (s₀ : JobState),
    x ∈ l.scanl stepQuestion s₀ →
    ∃ pre : List QOutcome,
      pre.length ≤ l.length ∧ x = pre.foldl stepQuestion s₀ := by
  intro l
  induction l with
  | nil =>
    intro s₀ hmem
    rw [List.scanl_nil, List.mem_singleton] at hmem
    exact ⟨[], by simp, hmem⟩
  | cons o t ih =>
    intro s₀ hmem
    rw [List.scanl_cons, List.singleton_append, List.mem_cons] at hmem
    rcases hmem with h | h
    · exact ⟨[], by simp, h⟩
    · obtain ⟨pre, hlen, hx⟩ := ih (stepQuestion s₀ o) h
      exact ⟨o :: pre, by simpa using Nat.succ_le_succ hlen, hx⟩

/-- The scanned run always starts at its initial state. -/
theorem scanl_stepQuestion_head (l : List QOutcome) (s₀ : JobState)
    (rest : List JobState) :
    ((l.scanl stepQuestion s₀) ++ rest).head? = some s₀ := by
  cases l <;> simp [List.scanl_nil, List.scanl_cons]

/-- The job status chain across the question loop and the terminal
commit, for any terminal commit that is a legal step out of
`processing`. -/
theorem chain_scanl_stepQuestion (g : JobState → JobState)
    (hg : ∀ s : JobState, s.status = .processing → statusAdvance s (g s)) :
    ∀ (l : List QOutcome) (s : JobState), s.status = .processing →
    List.Chain' statusAdvance
      ((l.scanl stepQuestion s) ++ [g (l.foldl stepQuestion s)]) := by
  intro l
  induction l with
  | nil =>
    intro s hs
    simp only [List.scanl_nil, List.foldl_nil, List.singleton_append]
    exact List.chain'_pair.mpr (hg s hs)
  | cons o t ih =>
    intro s hs
    rw [List.scanl_cons, List.singleton_append, List.foldl_cons,
      List.cons_append]
    rw [List.chain'_cons']
    refine ⟨?_, ih (stepQuestion s o) (by rw [(stepQuestion_fields s o).2.2.2.1, hs])⟩
    intro y hy
    rw [scanl_stepQuestion_head, Option.mem_some_iff] at hy
    subst hy
    exact Or.inl (stepQuestion_fields s o).2.2.2.1.symm

/-- C4: along every observable (committed) state of a classification job
run — creation, the `processing` transition, each per-question commit,
and the terminal commit — `processed = success + failed` and
`processed ≤ total` hold; a `completed` status implies
`processed = total`; terminal states carry `completed_at`; and the
status only advances along `pending → processing → {completed, failed}`. -/
theorem job_accounting_spec (total : ℕ) (outcomes : List QOutcome)
    (aborted : Bool) (t : ℕ)
    (hlen : outcomes.length ≤ total)
    (hdone : aborted = false → outcomes.length = total) :
    (∀ s ∈ jobTrace total outcomes aborted t,
        s.processedCount = s.successCount + s.failedCount
        ∧ s.processedCount ≤ s.totalCount
        ∧ (s.status = .completed → s.processedCount = s.totalCount)
        ∧ (s.status = .completed ∨ s.status = .failed →
            s.completedAt.isSome = true))
    ∧ List.Chain' statusAdvance (jobTrace total outcomes aborted t) := by
  constructor
  · intro s hs
    simp only [jobTrace, List.mem_cons, List.mem_append,
      List.mem_singleton] at hs
    rcases hs with hs | hs | hs | hs
    · subst hs
      simp [initialJob]
    · obtain ⟨pre, hplen, rfl⟩ := mem_scanl_stepQuestion s outcomes _ hs
      obtain ⟨h1, h2, h3, h4, h5⟩ :=
        foldl_stepQuestion_fields pre
          ({ initialJob total with status := .processing })
      try simp only [initialJob] at h1 h2 h3 h4 h5
      simp only [initialJob]
      refine ⟨by omega, by omega, ?_, ?_⟩
      · intro hstat
        rw [hstat] at h4
        cases h4
      · intro hstat
        rcases hstat with hstat | hstat <;> rw [hstat] at h4 <;> cases h4
    · obtain ⟨h1, h2, h3, h4, h5⟩ :=
        foldl_stepQuestion_fields outcomes
          ({ initialJob total with status := .processing })
      try simp only [initialJob] at h1 h2 h3 h4 h5
      cases aborted with
      | true =>
        rw [hs]
        refine ⟨by simp [initialJob]; omega, by simp [initialJob]; omega,
          fun hstat => ?_, fun _ => by simp⟩
        simp at hstat
      | false =>
        rw [hs]
        have htot := hdone rfl
        refine ⟨by simp [initialJob]; omega, by simp [initialJob]; omega,
          fun _ => by simp [initialJob]; omega, fun _ => by simp⟩
    · cases hs
  · simp only [jobTrace]
    rw [List.chain'_cons']
    constructor
    · intro y hy
      rw [scanl_stepQuestion_head, Option.mem_some_iff] at hy
      subst hy
      exact Or.inr (Or.inl ⟨rfl, rfl⟩)
    · refine chain_scanl_stepQuestion
        (fun last =>
          if aborted then
            { last with status := .failed, completedAt := some t }
          else
            { last with status := .completed, completedAt := some t })
        ?_ outcomes ({ initialJob total with status := .processing }) rfl
      intro s hstat
      cases aborted with
      | true => exact Or.inr (Or.inr ⟨hstat, Or.inr rfl⟩)
      | false => exact Or.inr (Or.inr ⟨hstat, Or.inl rfl⟩)

/-- Witness for the C4 theorem: a two-question job (one success, one
error) that finishes normally satisfies the accounting invariants at
every committed state and advances statuses legally. -/
theorem job_accounting_spec_witness :
    (([QOutcome.classified, QOutcome.errored].length ≤ 2)
     ∧ (false = false → [QOutcome.classified, QOutcome.errored].length = 2))
    ∧ ((∀ s ∈ jobTrace 2 [QOutcome.classified, QOutcome.errored] false 5,
          s.processedCount = s.successCount + s.failedCount
          ∧ s.processedCount ≤ s.totalCount
          ∧ (s.status = .completed → s.processedCount = s.totalCount)
          ∧ (s.status = .completed ∨ s.status = .failed →
              s.completedAt.isSome = true))
        ∧ List.Chain' statusAdvance
            (jobTrace 2 [QOutcome.classified, QOutcome.errored] false 5)) :=
  ⟨⟨by decide, fun _ => by decide⟩,
   job_accounting_spec 2 [QOutcome.classified, QOutcome.errored] false 5
     (by decide) (fun _ => by decide)⟩

/-- Applying the same payload result to a question twice (mode `all`)
leaves the observable question state — `lecture_id`, `is_classified`,
`classification_status`, evidence rows — exactly as after one apply. -/
theorem applyOne_all_idem (env : ApplyEnv) (jobId : Int) (now₁ now₂ : ℕ)
    (q : QuestionState) (r : PayloadResult) :
    observable
      (applyOne env .all jobId now₂ (applyOne env .all jobId now₁ q r).1 r).1
      = observable (applyOne env .all jobId now₁ q r).1 := by
  cases hL : lookupLecture env r.lectureId with
  | none =>
    cases hqc : q.isClassified <;>
      simp [applyOne, observable, shouldApply, hL, hqc]
  | some p =>
    cases hnm : r.noMatch <;> cases hqc : q.isClassified <;>
      simp [applyOne, observable, shouldApply, hL, hnm, hqc]

/-- The loop `applyRun` does not touch questions outside the requested id
list. -/
theorem applyRun_not_mem (env : ApplyEnv) (mode : ApplyMode) (jobId : Int)
    (now : ℕ) (results : Int → Option PayloadResult) :
    ∀ (qids : List Int) (store : Int → Option QuestionState) (x : Int),
    x ∉ qids → applyRun env mode jobId now results qids store x = store x := by
  intro qids
  induction qids with
  | nil => intro store x _; rfl
  | cons qid t ih =>
    intro store x hx
    rw [List.mem_cons, not_or] at hx
    rw [applyRun, List.foldl_cons]
    rw [show List.foldl _ _ t
          = applyRun env mode jobId now results t _ from rfl]
    rw [ih _ x hx.2]
    cases hres : results qid <;> cases hst : store qid <;>
      simp [hres, hst, hx.1]

/-- On a duplicate-free id list, the stored row of a requested question
after `applyRun` is exactly one `stepAt` applied to its previous row. -/
theorem applyRun_mem (env : ApplyEnv) (mode : ApplyMode) (jobId : Int)
    (now : ℕ) (results : Int → Option PayloadResult) :
    ∀ (qids : List Int) (store : Int → Option QuestionState) (x : Int),
    qids.Nodup → x ∈ qids →
    applyRun env mode jobId now results qids store x
      = stepAt env mode jobId now results x (store x) := by
  intro qids
  induction qids with
  | nil => intro store x _ hx; cases hx
  | cons qid t ih =>
    intro store x hnd hx
    rw [List.nodup_cons] at hnd
    rw [applyRun, List.foldl_cons]
    rw [show List.foldl _ _ t
          = applyRun env mode jobId now results t _ from rfl]
    rcases List.mem_cons.mp hx with hx | hx
    · subst hx
      rw [applyRun_not_mem env mode jobId now results t _ x hnd.1]
      cases hres : results x <;> cases hst : store x <;>
        simp [stepAt, hres, hst]
    · have hne : x ≠ qid := fun he => hnd.1 (he ▸ hx)
      rw [ih _ x hnd.2 hx]
      cases hres : results qid <;> cases hst : store qid <;>
        simp [stepAt, hres, hst, hne]

/-- C5: `apply_classification_results` with `apply_mode = "all"` is
idempotent on the observable question state: for any duplicate-free
question id set, applying the same job payload twice leaves every
question with the same `lecture_id`, `is_classified`,
`classification_status` and evidence rows as applying once; and in the
S6 scenario question 55 ends (after one or two applies) with
`lecture_id = 9, is_classified = true, status = "ai_confirmed"` and
exactly two evidence rows with `is_primary = [true, false]`. -/
theorem apply_all_idempotent (env : ApplyEnv) (jobId : Int) (now₁ now₂ : ℕ)
    (results : Int → Option PayloadResult) (qids : List Int)
    (store : Int → Option QuestionState) (hnd : qids.Nodup) :
    (∀ x : Int,
      ((applyRun env .all jobId now₂ results qids
          (applyRun env .all jobId now₁ results qids store)) x).map observable
        = ((applyRun env .all jobId now₁ results qids store) x).map observable)
    ∧ (((applyRun applyS6Env .all 77 10 applyS6Results [55] applyS6Store)
          55).map observable = some applyS6Expected)
    ∧ (((applyRun applyS6Env .all 77 11 applyS6Results [55]
          (applyRun applyS6Env .all 77 10 applyS6Results [55] applyS6Store))
          55).map observable = some applyS6Expected) := by
  refine ⟨?_, by decide, by decide⟩
  intro x
  by_cases hx : x ∈ qids
  · rw [applyRun_mem env .all jobId now₂ results qids _ x hnd hx,
      applyRun_mem env .all jobId now₁ results qids _ x hnd hx]
    cases hres : results x with
    | none => simp [stepAt, hres]
    | some r =>
      cases hst : store x with
      | none => simp [stepAt, hres, hst]
      | some q => simp [stepAt, hres, hst, applyOne_all_idem]
  · rw [applyRun_not_mem env .all jobId now₂ results qids _ x hx]

/-- Witness for the C5 theorem: in the S6 scenario, the stored state of
question 55 after two applies observably equals its state after one. -/
theorem apply_all_idempotent_witness :
    ([55] : List Int).Nodup
    ∧ ((applyRun applyS6Env .all 77 11 applyS6Results [55]
          (applyRun applyS6Env .all 77 10 applyS6Results [55] applyS6Store))
          55).map observable
        = ((applyRun applyS6Env .all 77 10 applyS6Results [55] applyS6Store)
            55).map observable :=
  ⟨by decide,
   (apply_all_idempotent applyS6Env 77 10 11 applyS6Results [55] applyS6Store
      (by decide)).1 55⟩

end ExamMgr
